import Mathlib

/-!
# TradeFlow historical market-bar synchronization engine — verification

Shallow embedding of the PolygonService data-sync engine (store writes with
dedup, paginated fetches, download jobs, calendar math, chunk partitioning)
together with proofs of the spec's testable properties.

Timestamps are modelled as integer milliseconds since the Unix epoch; the
relational store is a list of rows whose (symbol, timestamp, timeframe)
triple is the uniqueness key, and conflict-ignoring inserts skip any row
whose key is already present.
-/

/-- One OHLCV candle as returned by the upstream provider
(`PolygonCandle` in the source): close, high, low, open, timestamp (ms),
volume. -/
structure PolygonCandle where
  c : Int
  h : Int
  l : Int
  o : Int
  t : Int
  v : Int
deriving DecidableEq, Repr

/-- One stored row of the `historical_data` table. -/
structure HRow where
  symbol : String
  timestamp : Int
  openPrice : Int
  highPrice : Int
  lowPrice : Int
  closePrice : Int
  volume : Int
  timeframe : String
deriving DecidableEq, Repr

/-- The storage-layer uniqueness key: (symbol, timestamp, timeframe). -/
def rowKey (r : HRow) : String × Int × String :=
  (r.symbol, r.timestamp, r.timeframe)

/-- Does some stored row already carry this key? -/
def hasKey (st : List HRow) (k : String × Int × String) : Bool :=
  st.any (fun r => decide (rowKey r = k))

/-- Insert one row, ignoring it on a key conflict
(`onConflictDoNothing` against the unique constraint). -/
def insertRowIgnore (st : List HRow) (r : HRow) : List HRow :=
  if hasKey st (rowKey r) then st else st ++ [r]

/-- Batched conflict-ignoring insert: each row of the batch is inserted
unless its key is already present (rows earlier in the same batch count). -/
def insertIgnore (st : List HRow) (rows : List HRow) : List HRow :=
  rows.foldl insertRowIgnore st

/-- `formatCandleForDB`: convert a provider candle to a store row. -/
def formatCandleForDB (candle : PolygonCandle) (symbol : String)
    (timeframe : String) : HRow :=
  { symbol := symbol
    timestamp := candle.t
    openPrice := candle.o
    highPrice := candle.h
    lowPrice := candle.l
    closePrice := candle.c
    volume := candle.v
    timeframe := timeframe }

/-- The timestamps already stored for a (symbol, timeframe) pair. -/
def existingTs (st : List HRow) (symbol timeframe : String) : List Int :=
  (st.filter (fun r =>
    decide (r.symbol = symbol) && decide (r.timeframe = timeframe))).map
    (fun r => r.timestamp)

/-- `saveIntelligentData`: load the set of timestamps already stored for
(symbol, timeframe), keep only the candles whose timestamp is not yet
present, and insert them with conflict-ignoring semantics. -/
def saveIntelligentData (st : List HRow) (symbol : String)
    (candles : List PolygonCandle) (timeframe : String) : List HRow :=
  if candles = [] then st
  else if candles.filter
      (fun cd => !(decide (cd.t ∈ existingTs st symbol timeframe))) = [] then st
  else insertIgnore st
    ((candles.filter
        (fun cd => !(decide (cd.t ∈ existingTs st symbol timeframe)))).map
      (fun cd => formatCandleForDB cd symbol timeframe))

/-- `saveBarsToDatabase`: plain conflict-ignoring insert of a whole batch
(no pre-filter), used by the incremental sync path. -/
def saveBarsToDatabase (st : List HRow) (symbol : String)
    (candles : List PolygonCandle) (timeframe : String) : List HRow :=
  insertIgnore st (candles.map (fun cd => formatCandleForDB cd symbol timeframe))

/-- The store never holds two rows with the same key. -/
def UniqueKeys (st : List HRow) : Prop :=
  List.Pairwise (fun a b => rowKey a ≠ rowKey b) st

/-- Number of stored rows carrying a given key. -/
def countKey (st : List HRow) (k : String × Int × String) : Nat :=
  st.countP (fun r => decide (rowKey r = k))

/- ### Store lemmas -/

theorem hasKey_iff (st : List HRow) (k : String × Int × String) :
    hasKey st k = true ↔ ∃ r ∈ st, rowKey r = k := by
  simp [hasKey]

theorem prefixExt_insertRowIgnore (st : List HRow) (r : HRow) :
    st <+: insertRowIgnore st r := by
  unfold insertRowIgnore
  split
  · exact List.prefix_refl st
  · exact ⟨[r], rfl⟩

theorem prefixExt_insertIgnore (rows : List HRow) (st : List HRow) :
    st <+: insertIgnore st rows := by
  induction rows generalizing st with
  | nil => exact List.prefix_refl st
  | cons r rest ih =>
    exact (prefixExt_insertRowIgnore st r).trans (ih (insertRowIgnore st r))

theorem hasKey_insertRowIgnore (st : List HRow) (r : HRow)
    (k : String × Int × String) :
    hasKey (insertRowIgnore st r) k = (hasKey st k || decide (rowKey r = k)) := by
  unfold insertRowIgnore
  by_cases hk : hasKey st (rowKey r) = true
  · rw [if_pos hk]
    by_cases he : rowKey r = k
    · rw [he] at hk
      simp [hk, he]
    · simp [he]
  · rw [if_neg hk]
    simp [hasKey]

theorem hasKey_mono_insertIgnore (rows : List HRow) (st : List HRow)
    (k : String × Int × String) (h : hasKey st k = true) :
    hasKey (insertIgnore st rows) k = true := by
  induction rows generalizing st with
  | nil => exact h
  | cons r rest ih =>
    refine ih (insertRowIgnore st r) ?_
    rw [hasKey_insertRowIgnore, h]
    rfl

theorem hasKey_insertIgnore_of_mem (rows : List HRow) (st : List HRow)
    (r : HRow) (hr : r ∈ rows) :
    hasKey (insertIgnore st rows) (rowKey r) = true := by
  induction rows generalizing st with
  | nil => cases hr
  | cons a rest ih =>
    rcases List.mem_cons.mp hr with h | h
    · subst h
      refine hasKey_mono_insertIgnore rest (insertRowIgnore st r) _ ?_
      rw [hasKey_insertRowIgnore]
      simp
    · exact ih (insertRowIgnore st a) h

theorem mem_existingTs_iff (st : List HRow) (symbol timeframe : String)
    (t : Int) :
    t ∈ existingTs st symbol timeframe ↔
      ∃ r ∈ st, rowKey r = (symbol, t, timeframe) := by
  unfold existingTs
  simp only [List.mem_map, List.mem_filter, Bool.and_eq_true, decide_eq_true_eq]
  constructor
  · rintro ⟨r, ⟨hr, hs, hf⟩, ht⟩
    exact ⟨r, hr, by simp [rowKey, hs, hf, ht]⟩
  · rintro ⟨r, hr, hk⟩
    unfold rowKey at hk
    refine ⟨r, ⟨hr, ?_, ?_⟩, ?_⟩ <;>
      simp only [Prod.mk.injEq] at hk <;> tauto

theorem mem_existingTs_of_hasKey (st : List HRow) (symbol timeframe : String)
    (t : Int) (h : hasKey st (symbol, t, timeframe) = true) :
    t ∈ existingTs st symbol timeframe :=
  (mem_existingTs_iff st symbol timeframe t).mpr ((hasKey_iff _ _).mp h)

theorem existingTs_mono_of_prefixExt {st st' : List HRow}
    (h : st <+: st') (symbol timeframe : String) (t : Int)
    (ht : t ∈ existingTs st symbol timeframe) :
    t ∈ existingTs st' symbol timeframe := by
  rcases h with ⟨ext, rfl⟩
  rcases (mem_existingTs_iff st symbol timeframe t).mp ht with ⟨r, hr, hk⟩
  exact (mem_existingTs_iff _ symbol timeframe t).mpr
    ⟨r, List.mem_append_left ext hr, hk⟩

/-- After `saveIntelligentData`, every candle's timestamp is present for the
(symbol, timeframe) pair. -/
theorem mem_existingTs_saveIntelligentData (st : List HRow) (symbol : String)
    (candles : List PolygonCandle) (timeframe : String)
    (cd : PolygonCandle) (hcd : cd ∈ candles) :
    cd.t ∈ existingTs (saveIntelligentData st symbol candles timeframe)
      symbol timeframe := by
  unfold saveIntelligentData
  have hne : ¬ candles = [] := List.ne_nil_of_mem hcd
  simp only [hne, if_false]
  by_cases hex : cd.t ∈ existingTs st symbol timeframe
  · split
    · exact hex
    · exact existingTs_mono_of_prefixExt (prefixExt_insertIgnore _ st) _ _ _ hex
  · have hmem : cd ∈ candles.filter
        (fun c => !(decide (c.t ∈ existingTs st symbol timeframe))) := by
      refine List.mem_filter.mpr ⟨hcd, ?_⟩
      simp [hex]
    split
    · rename_i hnil
      rw [hnil] at hmem
      cases hmem
    · rename_i hnil
      refine mem_existingTs_of_hasKey _ _ _ _ ?_
      have := hasKey_insertIgnore_of_mem
        ((candles.filter
            (fun c => !(decide (c.t ∈ existingTs st symbol timeframe)))).map
          (fun c => formatCandleForDB c symbol timeframe)) st
        (formatCandleForDB cd symbol timeframe)
        (List.mem_map_of_mem _ hmem)
      simpa [formatCandleForDB, rowKey] using this

/-- The dedup filter on a store that already holds every candle's timestamp
keeps nothing, so the write is a no-op. -/
theorem saveIntelligentData_eq_of_all_present (st : List HRow)
    (symbol : String) (candles : List PolygonCandle) (timeframe : String)
    (h : ∀ cd ∈ candles, cd.t ∈ existingTs st symbol timeframe) :
    saveIntelligentData st symbol candles timeframe = st := by
  unfold saveIntelligentData
  split
  · rfl
  · have : candles.filter
        (fun c => !(decide (c.t ∈ existingTs st symbol timeframe))) = [] := by
      refine List.filter_eq_nil_iff.mpr ?_
      intro cd hcd
      simp [h cd hcd]
    simp [this]

/-- Writing the same batch again changes nothing. -/
theorem saveIntelligentData_idem (st : List HRow) (symbol : String)
    (candles : List PolygonCandle) (timeframe : String) :
    saveIntelligentData (saveIntelligentData st symbol candles timeframe)
      symbol candles timeframe
      = saveIntelligentData st symbol candles timeframe :=
  saveIntelligentData_eq_of_all_present _ _ _ _
    (fun cd hcd => mem_existingTs_saveIntelligentData st symbol candles
      timeframe cd hcd)

theorem uniqueKeys_insertRowIgnore (st : List HRow) (r : HRow)
    (h : UniqueKeys st) : UniqueKeys (insertRowIgnore st r) := by
  unfold insertRowIgnore
  split
  · exact h
  · rename_i hk
    refine List.pairwise_append.mpr ⟨h, List.pairwise_singleton _ _, ?_⟩
    intro a ha b hb
    rcases List.mem_singleton.mp hb with rfl
    intro hab
    exact hk ((hasKey_iff st (rowKey b)).mpr ⟨a, ha, hab⟩)

theorem uniqueKeys_insertIgnore (rows : List HRow) (st : List HRow)
    (h : UniqueKeys st) : UniqueKeys (insertIgnore st rows) := by
  induction rows generalizing st with
  | nil => exact h
  | cons r rest ih => exact ih _ (uniqueKeys_insertRowIgnore st r h)

theorem uniqueKeys_saveIntelligentData (st : List HRow) (symbol : String)
    (candles : List PolygonCandle) (timeframe : String) (h : UniqueKeys st) :
    UniqueKeys (saveIntelligentData st symbol candles timeframe) := by
  unfold saveIntelligentData
  split
  · exact h
  · split
    · exact h
    · exact uniqueKeys_insertIgnore _ st h

theorem countKey_le_one_of_uniqueKeys (st : List HRow)
    (k : String × Int × String) (h : UniqueKeys st) : countKey st k ≤ 1 := by
  induction st with
  | nil => simp [countKey]
  | cons r rest ih =>
    have hrest := ih (List.pairwise_cons.mp h).2
    unfold countKey at *
    rw [List.countP_cons]
    by_cases hk : rowKey r = k
    · subst hk
      have hzero : rest.countP (fun r' => decide (rowKey r' = rowKey r)) = 0 := by
        refine List.countP_eq_zero.mpr ?_
        intro r' hr'
        have := (List.pairwise_cons.mp h).1 r' hr'
        simp only [decide_eq_true_eq]
        exact fun he => this he.symm
      simp [hzero]
    · simp [hk, hrest]

theorem one_le_countKey_of_hasKey (st : List HRow)
    (k : String × Int × String) (h : hasKey st k = true) :
    1 ≤ countKey st k := by
  rcases (hasKey_iff st k).mp h with ⟨r, hr, hk⟩
  unfold countKey
  have : 0 < st.countP (fun r' => decide (rowKey r' = k)) :=
    List.countP_pos_iff.mpr ⟨r, hr, by simp [hk]⟩
  omega

/-- **C1.** Writing a batch of bars is idempotent: running the dedup write
(`saveIntelligentData`) on a batch and then running it again on the same
batch leaves the store with exactly the rows of the batch once — the second
call is a no-op, and (on a store satisfying the uniqueness constraint) each
written (symbol, timestamp, timeframe) key is stored exactly once. -/
theorem saveIntelligentData_idempotent (st : List HRow) (symbol : String)
    (candles : List PolygonCandle) (timeframe : String)
    (hU : UniqueKeys st) :
    saveIntelligentData (saveIntelligentData st symbol candles timeframe)
      symbol candles timeframe
      = saveIntelligentData st symbol candles timeframe
    ∧ ∀ cd ∈ candles,
        countKey (saveIntelligentData st symbol candles timeframe)
          (symbol, cd.t, timeframe) = 1 := by
  refine ⟨saveIntelligentData_idem st symbol candles timeframe, ?_⟩
  intro cd hcd
  have hmem := mem_existingTs_saveIntelligentData st symbol candles timeframe cd hcd
  have hkey : hasKey (saveIntelligentData st symbol candles timeframe)
      (symbol, cd.t, timeframe) = true :=
    (hasKey_iff _ _).mpr ((mem_existingTs_iff _ _ _ _).mp hmem)
  have h1 := one_le_countKey_of_hasKey _ _ hkey
  have h2 := countKey_le_one_of_uniqueKeys _ (symbol, cd.t, timeframe)
    (uniqueKeys_saveIntelligentData st symbol candles timeframe hU)
  omega

/-- Witness for C1 at a concrete store and batch. -/
theorem saveIntelligentData_idempotent_witness :
    UniqueKeys [] ∧
    (saveIntelligentData (saveIntelligentData [] "AAPL"
        [⟨10, 12, 9, 11, 1000, 5⟩, ⟨11, 13, 10, 12, 2000, 6⟩] "1M")
        "AAPL" [⟨10, 12, 9, 11, 1000, 5⟩, ⟨11, 13, 10, 12, 2000, 6⟩] "1M"
      = saveIntelligentData [] "AAPL"
        [⟨10, 12, 9, 11, 1000, 5⟩, ⟨11, 13, 10, 12, 2000, 6⟩] "1M"
    ∧ ∀ cd ∈ ([⟨10, 12, 9, 11, 1000, 5⟩, ⟨11, 13, 10, 12, 2000, 6⟩] :
        List PolygonCandle),
        countKey (saveIntelligentData [] "AAPL"
          [⟨10, 12, 9, 11, 1000, 5⟩, ⟨11, 13, 10, 12, 2000, 6⟩] "1M")
          ("AAPL", cd.t, "1M") = 1) :=
  ⟨List.Pairwise.nil,
   saveIntelligentData_idempotent [] "AAPL"
     [⟨10, 12, 9, 11, 1000, 5⟩, ⟨11, 13, 10, 12, 2000, 6⟩] "1M"
     List.Pairwise.nil⟩

/- ### Paginated fetching (`fetchBars`, part_005) -/

/-- Body of one provider response: status flag, result candles, and an
optional continuation cursor (`next_url`). -/
structure PolygonResp where
  status : String
  results : List PolygonCandle
  next_url : Option String
deriving Repr

/-- One HTTP response: transport-level success flag plus the parsed body. -/
structure HttpResponse where
  ok : Bool
  body : PolygonResp
deriving Repr

/-- Safety cap on requests per `fetchBars` call. -/
def maxRequests : Nat := 50

/-- The do-while pagination loop of `fetchBars`, embedded with explicit
fuel; `requestCount` is the number of requests already issued, and
`provider i` is the response to the i-th request. The loop issues a
follow-up request exactly when the response carried a cursor and the
request count is still below the cap. -/
def fetchBarsAux (provider : Nat → HttpResponse) :
    Nat → Nat → List PolygonCandle →
      Except String (List PolygonCandle × Nat)
  | 0, requestCount, acc => .ok (acc, requestCount)
  | fuel + 1, requestCount, acc =>
    if (provider requestCount).ok = false then
      .error "Polygon API error"
    else if (provider requestCount).body.status = "ERROR" then
      .error "Polygon API error status"
    else
      match (provider requestCount).body.next_url with
      | some _ =>
        if requestCount + 1 < maxRequests then
          fetchBarsAux provider fuel (requestCount + 1)
            (acc ++ (provider requestCount).body.results)
        else
          .ok (acc ++ (provider requestCount).body.results, requestCount + 1)
      | none => .ok (acc ++ (provider requestCount).body.results, requestCount + 1)

/-- `fetchBars`: issue the initial request and follow pagination cursors,
accumulating all pages, until no cursor remains or the cap is reached.
Returns the accumulated candles and the number of requests issued. -/
def fetchBars (provider : Nat → HttpResponse) :
    Except String (List PolygonCandle × Nat) :=
  fetchBarsAux provider maxRequests 0 []

/-- Concatenation of the results of pages `start, …, start+len-1`,
in order. -/
def pagesFrom (provider : Nat → HttpResponse) : Nat → Nat → List PolygonCandle
  | _, 0 => []
  | i, len + 1 => (provider i).body.results ++ pagesFrom provider (i + 1) len

theorem pagesFrom_zero (provider : Nat → HttpResponse) (i : Nat) :
    pagesFrom provider i 0 = [] := rfl

theorem pagesFrom_succ (provider : Nat → HttpResponse) (i len : Nat) :
    pagesFrom provider i (len + 1)
      = (provider i).body.results ++ pagesFrom provider (i + 1) len := rfl

theorem fetchBarsAux_spec (provider : Nat → HttpResponse)
    (hok : ∀ i, i < maxRequests →
      (provider i).ok = true ∧ (provider i).body.status ≠ "ERROR") :
    ∀ fuel rc acc, fuel + rc = maxRequests → rc < maxRequests →
    ∃ bars n, fetchBarsAux provider fuel rc acc = .ok (bars, n)
      ∧ rc < n ∧ n ≤ maxRequests
      ∧ bars = acc ++ pagesFrom provider rc (n - rc)
      ∧ (∀ i, rc ≤ i → i + 1 < n → ((provider i).body.next_url).isSome = true)
      ∧ (n = maxRequests ∨ (provider (n - 1)).body.next_url = none) := by
  intro fuel
  induction fuel with
  | zero =>
    intro rc acc hsum hlt
    omega
  | succ fuel ih =>
    intro rc acc hsum hlt
    obtain ⟨hokrc, hstrc⟩ := hok rc hlt
    unfold fetchBarsAux
    rw [hokrc]
    simp only [Bool.true_eq_false, if_false, if_neg hstrc]
    cases hnext : (provider rc).body.next_url with
    | none =>
      refine ⟨acc ++ (provider rc).body.results, rc + 1, rfl, by omega, by omega,
        ?_, ?_, ?_⟩
      · have h1 : rc + 1 - rc = 1 := by omega
        rw [h1, pagesFrom_succ, pagesFrom_zero]
        simp
      · intro i hi1 hi2
        omega
      · right
        simpa using hnext
    | some u =>
      by_cases hcap : rc + 1 < maxRequests
      · rw [if_pos hcap]
        obtain ⟨bars, n, heq, hn1, hn2, hbars, hcur, hlast⟩ :=
          ih (rc + 1) (acc ++ (provider rc).body.results) (by omega) hcap
        refine ⟨bars, n, heq, by omega, hn2, ?_, ?_, hlast⟩
        · rw [hbars]
          have hnr : n - rc = (n - (rc + 1)) + 1 := by omega
          rw [hnr, pagesFrom_succ, List.append_assoc]
        · intro i hi1 hi2
          rcases Nat.eq_or_lt_of_le hi1 with h | h
          · rw [← h, hnext]
            rfl
          · exact hcur i h hi2
      · rw [if_neg hcap]
        refine ⟨acc ++ (provider rc).body.results, rc + 1, rfl, by omega,
          by omega, ?_, ?_, ?_⟩
        · have h1 : rc + 1 - rc = 1 := by omega
          rw [h1, pagesFrom_succ, pagesFrom_zero]
          simp
        · intro i hi1 hi2
          omega
        · left
          omega

/-- **C3.** Bounded pagination: for every provider — however adversarial —
whose responses are HTTP-successful and not hard errors, a single
`fetchBars` call terminates after at most `maxRequests` (50) requests,
accumulates the results of every fetched page in order, issues a follow-up
request exactly while the previous response carried a cursor and the count
was below the cap, and stops early exactly when a page has no cursor. -/
theorem fetchBars_bounded_pagination (provider : Nat → HttpResponse)
    (hok : ∀ i, i < maxRequests →
      (provider i).ok = true ∧ (provider i).body.status ≠ "ERROR") :
    ∃ bars n, fetchBars provider = .ok (bars, n)
      ∧ 0 < n ∧ n ≤ 50
      ∧ bars = pagesFrom provider 0 n
      ∧ (∀ i, i + 1 < n → ((provider i).body.next_url).isSome = true)
      ∧ (n = 50 ∨ (provider (n - 1)).body.next_url = none) := by
  obtain ⟨bars, n, heq, hn1, hn2, hbars, hcur, hlast⟩ :=
    fetchBarsAux_spec provider hok maxRequests 0 [] rfl (by decide)
  refine ⟨bars, n, heq, hn1, hn2, ?_, fun i hi => hcur i (Nat.zero_le i) hi,
    hlast⟩
  simpa using hbars

/-- A provider that misbehaves: every response is well-formed but always
carries a continuation cursor. -/
def advProvider : Nat → HttpResponse :=
  fun _ => ⟨true, ⟨"OK", [], some "next"⟩⟩

/-- Witness for C3: the adversarial provider that always returns a cursor
is cut off after at most 50 requests. -/
theorem fetchBars_bounded_pagination_witness :
    (∀ i, i < maxRequests →
      (advProvider i).ok = true ∧ (advProvider i).body.status ≠ "ERROR")
    ∧ ∃ bars n,
        fetchBars advProvider = .ok (bars, n)
        ∧ 0 < n ∧ n ≤ 50
        ∧ bars = pagesFrom advProvider 0 n
        ∧ (∀ i, i + 1 < n → ((advProvider i).body.next_url).isSome = true)
        ∧ (n = 50 ∨ (advProvider (n - 1)).body.next_url = none) := by
  have hne : ("OK" : String) ≠ "ERROR" := by decide
  exact ⟨fun _ _ => ⟨rfl, hne⟩,
    fetchBars_bounded_pagination advProvider (fun _ _ => ⟨rfl, hne⟩)⟩

/-- One unfolding step of the pagination loop. -/
theorem fetchBarsAux_succ (provider : Nat → HttpResponse) (fuel rc : Nat)
    (acc : List PolygonCandle) :
    fetchBarsAux provider (fuel + 1) rc acc =
      (if (provider rc).ok = false then
         .error "Polygon API error"
       else if (provider rc).body.status = "ERROR" then
         .error "Polygon API error status"
       else
         match (provider rc).body.next_url with
         | some _ =>
           if rc + 1 < maxRequests then
             fetchBarsAux provider fuel (rc + 1) (acc ++ (provider rc).body.results)
           else
             .ok (acc ++ (provider rc).body.results, rc + 1)
         | none => .ok (acc ++ (provider rc).body.results, rc + 1)) := rfl

/-- **C8.** Provider status handling: an HTTP-successful response carrying
the delayed-but-usable status (`"DELAYED"`) is treated as success — its
bars are returned to the caller — whereas a response carrying the hard
error status (`"ERROR"`) makes `fetchBars` abort with an error that
propagates to the caller. -/
theorem fetchBars_status_handling (provider : Nat → HttpResponse)
    (hok : (provider 0).ok = true) :
    ((provider 0).body.status = "DELAYED" → (provider 0).body.next_url = none →
      fetchBars provider = .ok ((provider 0).body.results, 1))
    ∧ ((provider 0).body.status = "ERROR" →
      fetchBars provider = .error "Polygon API error status") := by
  constructor
  · intro hst hnext
    show fetchBarsAux provider maxRequests 0 [] = _
    rw [show maxRequests = 49 + 1 from rfl, fetchBarsAux_succ]
    simp [hok, hst, hnext]
  · intro hst
    show fetchBarsAux provider maxRequests 0 [] = _
    rw [show maxRequests = 49 + 1 from rfl, fetchBarsAux_succ]
    simp [hok, hst]

/-- Witness for C8 at two concrete providers: one returning `"DELAYED"`
with one candle, one returning `"ERROR"`. -/
theorem fetchBars_status_handling_witness :
    fetchBars (fun _ => ⟨true, ⟨"DELAYED", [⟨1, 2, 3, 4, 5, 6⟩], none⟩⟩)
      = .ok ([⟨1, 2, 3, 4, 5, 6⟩], 1)
    ∧ fetchBars (fun _ => ⟨true, ⟨"ERROR", [], none⟩⟩)
      = .error "Polygon API error status" :=
  ⟨(fetchBars_status_handling
      (fun _ => ⟨true, ⟨"DELAYED", [⟨1, 2, 3, 4, 5, 6⟩], none⟩⟩) rfl).1 rfl rfl,
   (fetchBars_status_handling
      (fun _ => ⟨true, ⟨"ERROR", [], none⟩⟩) rfl).2 rfl⟩

/- ### Calendar (`isMarketOpen`, `getMostRecentMarketClose`) -/

/-- Day of week of a civil day index (days since 1970-01-01, a Thursday):
0 = Sunday, …, 6 = Saturday, as JavaScript's `getDay`. -/
def dayOfWeek (days : Int) : Int :=
  (days + 4) % 7

/-- A wall-clock instant in exchange-local (ET) time: civil day index plus
hour and minute. -/
structure ETTime where
  days : Int
  hour : Int
  minute : Int
deriving DecidableEq, Repr

/-- `isMarketOpen`: Monday–Friday, 9:30 AM – 4:00 PM ET (inclusive). -/
def isMarketOpen (et : ETTime) : Bool :=
  if dayOfWeek et.days = 0 ∨ dayOfWeek et.days = 6 then false
  else
    decide (9 * 60 + 30 ≤ et.hour * 60 + et.minute)
      && decide (et.hour * 60 + et.minute ≤ 16 * 60)

/-- The backward weekend-skipping walk of `getMostRecentMarketClose`
(`while (getDay() === 0 || getDay() === 6) setDate(getDate() - 1)`),
with fuel; two steps always suffice. -/
def skipWeekendsBack : Nat → Int → Int
  | 0, d => d
  | fuel + 1, d =>
    if dayOfWeek d = 0 ∨ dayOfWeek d = 6 then skipWeekendsBack fuel (d - 1)
    else d

/-- `getMostRecentMarketClose`: today's 4:00 PM if it is a weekday after
4 PM, otherwise the previous day's; then skip weekend days backward. -/
def getMostRecentMarketClose (et : ETTime) : ETTime :=
  ⟨skipWeekendsBack 7
    (if 1 ≤ dayOfWeek et.days ∧ dayOfWeek et.days ≤ 5 ∧ 16 ≤ et.hour then
      et.days
    else
      et.days - 1), 16, 0⟩

theorem skipWeekendsBack_weekday (fuel : Nat) (d : Int)
    (h : ¬(dayOfWeek d = 0 ∨ dayOfWeek d = 6)) :
    skipWeekendsBack fuel d = d := by
  cases fuel with
  | zero => rfl
  | succ fuel => exact if_neg h

theorem skipWeekendsBack_succ (fuel : Nat) (d : Int) :
    skipWeekendsBack (fuel + 1) d =
      if dayOfWeek d = 0 ∨ dayOfWeek d = 6 then skipWeekendsBack fuel (d - 1)
      else d := rfl

/-- **C9.** Calendar weekend behaviour: on a Saturday or Sunday the market
is closed and the most recent close is 4:00 PM of the preceding Friday
(one or two days back); more generally, on a weekday at or after 4 PM the
close is that same day's 4:00 PM, and on a weekday before 4 PM it is the
previous weekday's 4:00 PM (three days back on a Monday). -/
theorem calendar_weekend_behaviour (et : ETTime) :
    ((dayOfWeek et.days = 0 ∨ dayOfWeek et.days = 6) →
      isMarketOpen et = false
      ∧ getMostRecentMarketClose et =
          ⟨et.days - (if dayOfWeek et.days = 6 then 1 else 2), 16, 0⟩
      ∧ dayOfWeek (et.days - (if dayOfWeek et.days = 6 then 1 else 2)) = 5)
    ∧ ((1 ≤ dayOfWeek et.days ∧ dayOfWeek et.days ≤ 5) →
      (16 ≤ et.hour →
        getMostRecentMarketClose et = ⟨et.days, 16, 0⟩)
      ∧ (et.hour < 16 →
        getMostRecentMarketClose et =
          ⟨et.days - (if dayOfWeek et.days = 1 then 3 else 1), 16, 0⟩
        ∧ 1 ≤ dayOfWeek (et.days - (if dayOfWeek et.days = 1 then 3 else 1))
        ∧ dayOfWeek (et.days - (if dayOfWeek et.days = 1 then 3 else 1)) ≤ 5)) := by
  constructor
  · intro hwk
    refine ⟨?_, ?_, ?_⟩
    · unfold isMarketOpen
      rw [if_pos hwk]
    · unfold getMostRecentMarketClose
      have hcond : ¬(1 ≤ dayOfWeek et.days ∧ dayOfWeek et.days ≤ 5
          ∧ 16 ≤ et.hour) := by
        unfold dayOfWeek at hwk ⊢
        omega
      rw [if_neg hcond]
      rcases hwk with h0 | h6
      · -- Sunday: one step to Saturday, one more to Friday
        have hs : dayOfWeek (et.days - 1) = 6 := by
          unfold dayOfWeek at h0 ⊢
          omega
        have hf : dayOfWeek (et.days - 1 - 1) = 5 := by
          unfold dayOfWeek at h0 ⊢
          omega
        rw [skipWeekendsBack_succ, if_pos (Or.inr hs),
          skipWeekendsBack_succ, if_neg (by rw [hf]; omega)]
        have : et.days - (if dayOfWeek et.days = 6 then 1 else 2)
            = et.days - 1 - 1 := by
          rw [if_neg (by omega)]
          omega
        rw [this]
      · -- Saturday: one step to Friday
        have hf : dayOfWeek (et.days - 1) = 5 := by
          unfold dayOfWeek at h6 ⊢
          omega
        rw [skipWeekendsBack_succ, if_neg (by rw [hf]; omega)]
        rw [if_pos h6]
    · rcases hwk with h0 | h6
      · rw [if_neg (by omega)]
        unfold dayOfWeek at h0 ⊢
        omega
      · rw [if_pos h6]
        unfold dayOfWeek at h6 ⊢
        omega
  · intro hwd
    constructor
    · intro hh
      unfold getMostRecentMarketClose
      rw [if_pos ⟨hwd.1, hwd.2, hh⟩]
      rw [skipWeekendsBack_weekday 7 et.days (by omega)]
    · intro hh
      have hcond : ¬(1 ≤ dayOfWeek et.days ∧ dayOfWeek et.days ≤ 5
          ∧ 16 ≤ et.hour) := by
        omega
      by_cases hmon : dayOfWeek et.days = 1
      · have hsun : dayOfWeek (et.days - 1) = 0 := by
          unfold dayOfWeek at hmon ⊢
          omega
        have hsat : dayOfWeek (et.days - 1 - 1) = 6 := by
          unfold dayOfWeek at hmon ⊢
          omega
        have hfri : dayOfWeek (et.days - 1 - 1 - 1) = 5 := by
          unfold dayOfWeek at hmon ⊢
          omega
        refine ⟨?_, ?_, ?_⟩
        · unfold getMostRecentMarketClose
          rw [if_neg hcond, skipWeekendsBack_succ, if_pos (Or.inl hsun),
            skipWeekendsBack_succ, if_pos (Or.inr hsat),
            skipWeekendsBack_succ, if_neg (by rw [hfri]; omega)]
          rw [if_pos hmon]
          have : et.days - 3 = et.days - 1 - 1 - 1 := by omega
          rw [this]
        · rw [if_pos hmon]
          unfold dayOfWeek at hmon ⊢
          omega
        · rw [if_pos hmon]
          unfold dayOfWeek at hmon ⊢
          omega
      · have hprev : 1 ≤ dayOfWeek (et.days - 1)
            ∧ dayOfWeek (et.days - 1) ≤ 5 := by
          unfold dayOfWeek at hwd hmon ⊢
          omega
        refine ⟨?_, ?_, ?_⟩
        · unfold getMostRecentMarketClose
          rw [if_neg hcond,
            skipWeekendsBack_weekday 7 (et.days - 1) (by omega)]
          rw [if_neg hmon]
        · rw [if_neg hmon]
          omega
        · rw [if_neg hmon]
          omega

/-- Witness for C9 at concrete instants: Saturday 1970-01-03 10:00,
Monday 1970-01-05 17:30 and Monday 1970-01-05 9:00 ET. -/
theorem calendar_weekend_behaviour_witness :
    (isMarketOpen ⟨2, 10, 0⟩ = false
      ∧ getMostRecentMarketClose ⟨2, 10, 0⟩ = ⟨1, 16, 0⟩)
    ∧ getMostRecentMarketClose ⟨4, 17, 30⟩ = ⟨4, 16, 0⟩
    ∧ getMostRecentMarketClose ⟨4, 9, 0⟩ = ⟨1, 16, 0⟩ := by
  obtain ⟨h1, h2, _⟩ := (calendar_weekend_behaviour ⟨2, 10, 0⟩).1 (by decide)
  obtain ⟨h3, h4⟩ := (calendar_weekend_behaviour ⟨4, 17, 30⟩).2 (by decide)
  obtain ⟨h5, h6⟩ := (calendar_weekend_behaviour ⟨4, 9, 0⟩).2 (by decide)
  refine ⟨⟨h1, ?_⟩, h3 (by decide), ?_⟩
  · rw [h2]
    decide
  · rw [(h6 (by decide)).1]
    decide

/- ### Staleness detection and incremental sync -/

/-- Milliseconds per civil day. -/
def msPerDay : Int := 86400000

/-- `getLatestDataTimestamp`: the maximum stored timestamp for a symbol
(`orderBy desc limit 1`), or none when the symbol has no rows. -/
def getLatestDataTimestamp (st : List HRow) (symbol : String) : Option Int :=
  (st.filter (fun r => decide (r.symbol = symbol))).foldl
    (fun acc r =>
      match acc with
      | none => some r.timestamp
      | some m => some (max m r.timestamp)) none

/-- `needsDataSync`: sync is needed when no data exists or the latest
stored timestamp precedes the most recent market close. -/
def needsDataSync (st : List HRow) (symbol : String)
    (mostRecentClose : Int) : Bool :=
  match getLatestDataTimestamp st symbol with
  | none => true
  | some ts => decide (ts < mostRecentClose)

/-- `syncTickerData`, with the bars a provider fetch would return passed as
`fetchResult`: fails when no data exists; returns the store unchanged —
issuing no fetch — when the day after the latest stored timestamp reaches
the most recent close; otherwise fetches and writes. The Bool records
whether a provider fetch was issued. -/
def syncTickerData (st : List HRow) (symbol : String) (mostRecentClose : Int)
    (fetchResult : List PolygonCandle) :
    Except String (List HRow × Bool) :=
  match getLatestDataTimestamp st symbol with
  | none => .error "No existing data found. Use downloadHistoricalData instead."
  | some ts =>
    if mostRecentClose ≤ ts + msPerDay then .ok (st, false)
    else if fetchResult.length > 0 then
      .ok (saveBarsToDatabase st symbol fetchResult "1M", true)
    else .ok (st, true)

/-- **C6.** Staleness monotonicity: when `needsDataSync` is false — the
latest stored bar is not earlier than the most recent session close —
`syncTickerData` issues no provider fetch and leaves the stored data
unchanged, whatever the provider would have returned. -/
theorem syncTickerData_noop_when_fresh (st : List HRow) (symbol : String)
    (mostRecentClose : Int) (fetchResult : List PolygonCandle)
    (h : needsDataSync st symbol mostRecentClose = false) :
    syncTickerData st symbol mostRecentClose fetchResult = .ok (st, false) := by
  unfold needsDataSync at h
  unfold syncTickerData
  cases hts : getLatestDataTimestamp st symbol with
  | none =>
    rw [hts] at h
    cases h
  | some ts =>
    rw [hts] at h
    simp only [hts]
    simp only [decide_eq_false_iff_not, not_lt] at h
    rw [if_pos (show mostRecentClose ≤ ts + msPerDay by unfold msPerDay; omega)]

/-- Witness for C6: a store whose latest bar is already past the most
recent close. -/
theorem syncTickerData_noop_when_fresh_witness :
    needsDataSync [⟨"AAPL", 1000, 1, 2, 3, 4, 5, "1M"⟩] "AAPL" 500 = false
    ∧ syncTickerData [⟨"AAPL", 1000, 1, 2, 3, 4, 5, "1M"⟩] "AAPL" 500
        [⟨1, 2, 3, 4, 5, 6⟩]
      = .ok ([⟨"AAPL", 1000, 1, 2, 3, 4, 5, "1M"⟩], false) :=
  ⟨by decide,
   syncTickerData_noop_when_fresh [⟨"AAPL", 1000, 1, 2, 3, 4, 5, "1M"⟩]
     "AAPL" 500 [⟨1, 2, 3, 4, 5, 6⟩] (by decide)⟩

/- ### JavaScript date model

A JS `Date` is modelled as a normalized proleptic-Gregorian civil datetime
(year, 0-based month, 1-based day, milliseconds within the day);
`daysFromCivil`/`civilFromDays` are the standard civil-calendar day-count
conversions, so `mkJSDate` reproduces JS month/day overflow
normalization. -/

def civilYearAdj (y m : Int) : Int := y - (if m ≤ 2 then 1 else 0)

def doyOf (m d : Int) : Int :=
  (153 * (m + (if m > 2 then -3 else 9)) + 2) / 5 + d - 1

/-- Days since 1970-01-01 of the civil date y-m-d (month 1–12). -/
def daysFromCivil (y m d : Int) : Int :=
  civilYearAdj y m / 400 * 146097
  + (civilYearAdj y m % 400) * 365
  + (civilYearAdj y m % 400) / 4
  - (civilYearAdj y m % 400) / 100
  + doyOf m d - 719468

def cfdDoe (z : Int) : Int := (z + 719468) % 146097

def cfdYoe (z : Int) : Int :=
  (cfdDoe z - cfdDoe z / 1460 + cfdDoe z / 36524 - cfdDoe z / 146096) / 365

def cfdDoy (z : Int) : Int :=
  cfdDoe z - (365 * cfdYoe z + cfdYoe z / 4 - cfdYoe z / 100)

def cfdMp (z : Int) : Int := (5 * cfdDoy z + 2) / 153

/-- Civil date (year, month 1–12, day) of a day count since 1970-01-01. -/
def civilFromDays (z : Int) : Int × Int × Int :=
  ((cfdYoe z + (z + 719468) / 146097 * 400)
    + (if cfdMp z + (if cfdMp z < 10 then 3 else -9) ≤ 2 then 1 else 0),
   cfdMp z + (if cfdMp z < 10 then 3 else -9),
   cfdDoy z - (153 * cfdMp z + 2) / 5 + 1)

/-- First day (since epoch) of the month with global month index `k`
(index = year * 12 + 0-based month). -/
def monthStartDays (k : Int) : Int :=
  daysFromCivil (k / 12) (k % 12 + 1) 1

/-- A JavaScript `Date`: normalized civil fields plus time of day. -/
structure JSDate where
  year : Int
  month : Int
  day : Int
  msOfDay : Int
deriving DecidableEq, Repr

/-- `new Date(y, m, d)` with JS month and day overflow normalization
(month may be any integer; day 0 or beyond the month length rolls over). -/
def mkJSDate (y m d ms : Int) : JSDate :=
  ⟨(civilFromDays (daysFromCivil (y + m / 12) (m % 12 + 1) 1 + (d - 1))).1,
   (civilFromDays (daysFromCivil (y + m / 12) (m % 12 + 1) 1 + (d - 1))).2.1 - 1,
   (civilFromDays (daysFromCivil (y + m / 12) (m % 12 + 1) 1 + (d - 1))).2.2,
   ms⟩

def JSDate.toDays (dt : JSDate) : Int :=
  daysFromCivil dt.year (dt.month + 1) dt.day

/-- `getTime()`: milliseconds since the epoch. -/
def JSDate.getTime (dt : JSDate) : Int :=
  dt.toDays * msPerDay + dt.msOfDay

/-- Global month index of a date: year * 12 + 0-based month. -/
def monthIndex (dt : JSDate) : Int :=
  dt.year * 12 + dt.month

def daysInMonthJS (y m : Int) : Int :=
  monthStartDays (y * 12 + m + 1) - monthStartDays (y * 12 + m)

/-- Well-formedness of a normalized JS date. -/
def ValidJSDate (dt : JSDate) : Prop :=
  0 ≤ dt.month ∧ dt.month ≤ 11 ∧ 1 ≤ dt.day
  ∧ dt.day ≤ daysInMonthJS dt.year dt.month
  ∧ 0 ≤ dt.msOfDay ∧ dt.msOfDay < msPerDay

instance (dt : JSDate) : Decidable (ValidJSDate dt) := by
  unfold ValidJSDate
  infer_instance

/-- `calculateStartDate`: step the end date back by the requested period
(`setMonth`/`setFullYear` semantics, defaulting to one year). -/
def calculateStartDate (endDate : JSDate) (period : String) : JSDate :=
  if period = "1M" then
    mkJSDate endDate.year (endDate.month - 1) endDate.day endDate.msOfDay
  else if period = "3M" then
    mkJSDate endDate.year (endDate.month - 3) endDate.day endDate.msOfDay
  else if period = "6M" then
    mkJSDate endDate.year (endDate.month - 6) endDate.day endDate.msOfDay
  else if period = "1Y" then
    mkJSDate (endDate.year - 1) endDate.month endDate.day endDate.msOfDay
  else if period = "2Y" then
    mkJSDate (endDate.year - 2) endDate.month endDate.day endDate.msOfDay
  else if period = "5Y" then
    mkJSDate (endDate.year - 5) endDate.month endDate.day endDate.msOfDay
  else if period = "10Y" then
    mkJSDate (endDate.year - 10) endDate.month endDate.day endDate.msOfDay
  else if period = "MAX" then
    mkJSDate 2010 endDate.month endDate.day endDate.msOfDay
  else
    mkJSDate (endDate.year - 1) endDate.month endDate.day endDate.msOfDay

/-- `getYearRange`: the calendar years from the start date's through the
end date's, inclusive. -/
def getYearRange (startDate endDate : JSDate) : List Int :=
  (List.range (endDate.year - startDate.year + 1).toNat).map
    (fun (i : Nat) => startDate.year + (i : Int))

/-- `parseTimeframe`: map a timeframe string to Polygon (timespan,
multiplier); anything unrecognized falls back to 1-minute. -/
def parseTimeframe (timeframe : String) : String × Int :=
  if timeframe = "1M" then ("minute", 1)
  else if timeframe = "5M" then ("minute", 5)
  else if timeframe = "15M" then ("minute", 15)
  else if timeframe = "30M" then ("minute", 30)
  else if timeframe = "1H" then ("hour", 1)
  else if timeframe = "1D" then ("day", 1)
  else ("minute", 1)

/-- The month enumeration loop of the monthly download strategy
(`while (current <= end) { months.push(current); current.setMonth(+1) }`),
on global month indexes, with fuel. -/
def monthsLoop (fuel : Nat) (k : Int) (endDays : Int) : List Int :=
  match fuel with
  | 0 => []
  | f + 1 =>
    if monthStartDays k ≤ endDays then k :: monthsLoop f (k + 1) endDays
    else []

/-- One provider fetch issued by the bulk download: Polygon timespan and
multiplier plus the requested from/to days. -/
structure FetchCall where
  timespan : String
  multiplier : Int
  fromDays : Int
  toDays : Int
deriving DecidableEq, Repr

/-- The fetch for the calendar month with index `k`: from the first of the
month to the end of the month capped at the end date. -/
def monthlyCall (ts : String × Int) (k : Int) (endDate : JSDate) : FetchCall :=
  ⟨ts.1, ts.2, monthStartDays k,
   (min ((monthStartDays (k + 1) - 1) * msPerDay) endDate.getTime) / msPerDay⟩

/-- The fetch for one calendar year, clamped to the requested range. -/
def yearlyCall (ts : String × Int) (y : Int) (startDate endDate : JSDate) :
    FetchCall :=
  ⟨ts.1, ts.2,
   (max startDate.getTime (monthStartDays (y * 12) * msPerDay)) / msPerDay,
   (min endDate.getTime (daysFromCivil y 12 31 * msPerDay)) / msPerDay⟩

/-- The chunk plan of `downloadHistoricalData`: month-sized chunks when the
timeframe is exactly `"1M"` and the span exceeds 90 days, calendar-year
chunks otherwise. -/
def downloadChunkPlan (timeframe : String) (startDate endDate : JSDate) :
    List FetchCall :=
  if timeframe = "1M"
      ∧ endDate.getTime - startDate.getTime > 90 * 24 * 60 * 60 * 1000 then
    (monthsLoop ((monthIndex endDate + 2) - monthIndex startDate).toNat
        (monthIndex startDate)
        (monthStartDays (monthIndex endDate + 1) - 1)).map
      (fun k => monthlyCall (parseTimeframe timeframe) k endDate)
  else
    (getYearRange startDate endDate).map
      (fun y => yearlyCall (parseTimeframe timeframe) y startDate endDate)

/- ### Download jobs -/

/-- One row of the `download_jobs` table. -/
structure Job where
  id : String
  symbol : String
  timeframe : String
  period : String
  status : String
  startDate : JSDate
  endDate : JSDate
  expectedRecords : Nat
  currentRecords : Nat
  progressPercentage : String
deriving DecidableEq, Repr

/-- `calculateExpectedRecords`: trading-day estimate (≈252 market days per
year, scaled by the timeframe's per-session observation count). -/
def calculateExpectedRecords (timeframe period : String)
    (startDate endDate : JSDate) : Nat :=
  let diffDays := ((endDate.getTime - startDate.getTime).natAbs
    + 86399999) / 86400000
  let marketDays := (diffDays * 252 + 364) / 365
  if timeframe = "1M" then marketDays * 390
  else if timeframe = "5M" then marketDays * 78
  else if timeframe = "15M" then marketDays * 26
  else if timeframe = "30M" then marketDays * 13
  else if timeframe = "1H" then marketDays * 7
  else if timeframe = "1D" then marketDays
  else marketDays * 100

/-- `symbol.toUpperCase()`: uppercase every character. -/
def strToUpper (s : String) : String :=
  ⟨s.data.map Char.toUpper⟩

/-- First `in_progress` job for the exact (uppercased symbol, timeframe,
period) triple. -/
def findActiveJob (jobs : List Job) (symbolU timeframe period : String) :
    Option Job :=
  jobs.find? (fun j =>
    decide (j.symbol = symbolU) && decide (j.timeframe = timeframe)
      && decide (j.period = period) && decide (j.status = "in_progress"))

structure CreateJobResult where
  jobs : List Job
  jobId : String
  isExisting : Bool
deriving Repr

/-- `createDownloadJob`: attach to an existing `in_progress` job for the
same (symbol, timeframe, period), or insert a fresh `in_progress` job with
the computed expected record count. -/
def createDownloadJob (jobs : List Job) (symbol timeframe period : String)
    (startDate endDate : JSDate) (newId : String) : CreateJobResult :=
  match findActiveJob jobs (strToUpper symbol) timeframe period with
  | some j => ⟨jobs, j.id, true⟩
  | none =>
    ⟨jobs ++ [⟨newId, strToUpper symbol, timeframe, period, "in_progress",
        startDate, endDate,
        calculateExpectedRecords timeframe period startDate endDate, 0, "0"⟩],
      newId, false⟩

/-- The per-chunk fetch-and-save loop: a failed chunk fetch is caught and
skipped, a successful one is written through the dedup writer. -/
def runChunks (oracle : FetchCall → Except String (List PolygonCandle))
    (symbol timeframe : String) (chunks : List FetchCall)
    (st : List HRow) : List HRow :=
  chunks.foldl (fun acc ch =>
    match oracle ch with
    | .ok data =>
      if data.length > 0 then saveIntelligentData acc symbol data timeframe
      else acc
    | .error _ => acc) st

/-- Final job update of `downloadHistoricalData`: status `completed`,
progress 100. -/
def markJobCompleted (jobs : List Job) (jobId : String) : List Job :=
  jobs.map (fun j =>
    if j.id = jobId then
      { j with status := "completed", progressPercentage := "100" }
    else j)

structure DownloadResult where
  store : List HRow
  jobs : List Job
  chunks : List FetchCall
  jobId : String
  isExisting : Bool
deriving Repr

/-- `downloadHistoricalData`: compute the absolute range from the period,
create or attach to a download job (returning immediately when one is
already `in_progress`), fetch and dedup-write each chunk of the plan —
skipping chunks whose fetch fails — and finally mark the job completed at
100%. `endDate` stands for the market-aware end instant (most recent close
when the market is open, now otherwise); `oracle` gives each chunk fetch's
outcome. -/
def downloadHistoricalData
    (oracle : FetchCall → Except String (List PolygonCandle))
    (st : List HRow) (jobs : List Job) (symbol period timeframe : String)
    (endDate : JSDate) (newId : String) : DownloadResult :=
  let startDate := calculateStartDate endDate period
  let cj := createDownloadJob jobs symbol timeframe period startDate endDate newId
  if cj.isExisting then
    ⟨st, cj.jobs, [], cj.jobId, true⟩
  else
    ⟨runChunks oracle symbol timeframe
        (downloadChunkPlan timeframe startDate endDate) st,
      markJobCompleted cj.jobs cj.jobId,
      downloadChunkPlan timeframe startDate endDate,
      cj.jobId, false⟩

/- ### Progress reporting (`getDownloadProgress`) -/

/-- Count of stored bars for a (symbol, timeframe) pair. -/
def countRecords (st : List HRow) (symbol timeframe : String) : Nat :=
  (st.filter (fun r =>
    decide (r.symbol = symbol) && decide (r.timeframe = timeframe))).length

/-- `Math.min(Math.round(current / expected * 100), 100)` over exact
rationals (round half up). -/
def progressPct (current expected : Nat) : Nat :=
  min ((200 * current + expected) / (2 * expected)) 100

/-- The most recently created `in_progress` job for the symbol, optionally
filtered by timeframe and period (`orderBy createdAt desc limit 1`; the
job list is kept in creation order). -/
def findLatestActiveJob (jobs : List Job) (symbolU : String)
    (tfp : Option (String × String)) : Option Job :=
  (jobs.filter (fun j =>
    decide (j.symbol = symbolU) && decide (j.status = "in_progress")
      && match tfp with
         | some (tf, p) => decide (j.timeframe = tf) && decide (j.period = p)
         | none => true)).getLast?

structure ProgressResult where
  percentage : Nat
  status : String
  completed : Bool
deriving DecidableEq, Repr

/-- `getDownloadProgress`: recompute `currentRecords` by counting stored
bars for the job's (symbol, timeframe), derive the capped percentage, and
transition the job to `completed` once the count reaches the expectation
or the percentage reaches 100. Returns the report and the updated jobs. -/
def getDownloadProgress (st : List HRow) (jobs : List Job) (symbol : String)
    (tfp : Option (String × String)) : ProgressResult × List Job :=
  match findLatestActiveJob jobs (strToUpper symbol) tfp with
  | none => (⟨0, "No active download", true⟩, jobs)
  | some job =>
    if countRecords st job.symbol job.timeframe
          ≥ (if job.expectedRecords = 0 then 1 else job.expectedRecords)
        ∨ progressPct (countRecords st job.symbol job.timeframe)
            (if job.expectedRecords = 0 then 1 else job.expectedRecords)
          ≥ 100 then
      (⟨100, "Download completed", true⟩,
        jobs.map (fun j =>
          if j.id = job.id then
            { j with
              status := "completed",
              progressPercentage := "100",
              currentRecords := countRecords st job.symbol job.timeframe }
          else j))
    else
      (⟨progressPct (countRecords st job.symbol job.timeframe)
          (if job.expectedRecords = 0 then 1 else job.expectedRecords),
        "Downloading", false⟩,
        jobs.map (fun j =>
          if j.id = job.id then
            { j with
              currentRecords := countRecords st job.symbol job.timeframe,
              progressPercentage :=
                toString (progressPct
                  (countRecords st job.symbol job.timeframe)
                  (if job.expectedRecords = 0 then 1 else job.expectedRecords)) }
          else j))

/- ### C2: no duplicate jobs -/

/-- **C2.** No duplicate jobs: when an `in_progress` job already exists for
the exact (symbol, timeframe, period) triple, `createDownloadJob` returns
that job's id with `isExisting = true` and inserts nothing, and
`downloadHistoricalData` returns immediately — no chunk is fetched, no bar
is written; when no such job exists, the first request creates a job and a
second identical request while it is `in_progress` attaches to it,
yielding the same job id. -/
theorem no_duplicate_jobs
    (oracle : FetchCall → Except String (List PolygonCandle))
    (st : List HRow) (jobs : List Job)
    (symbol period timeframe : String) (startDate endDate : JSDate)
    (newId newId2 : String) :
    (∀ j, findActiveJob jobs (strToUpper symbol) timeframe period = some j →
      createDownloadJob jobs symbol timeframe period startDate endDate newId
        = ⟨jobs, j.id, true⟩
      ∧ downloadHistoricalData oracle st jobs symbol period timeframe endDate
          newId
        = ⟨st, jobs, [], j.id, true⟩)
    ∧ (findActiveJob jobs (strToUpper symbol) timeframe period = none →
      (createDownloadJob jobs symbol timeframe period startDate endDate
          newId).isExisting = false
      ∧ (createDownloadJob jobs symbol timeframe period startDate endDate
          newId).jobId = newId
      ∧ createDownloadJob
          (createDownloadJob jobs symbol timeframe period startDate endDate
            newId).jobs
          symbol timeframe period startDate endDate newId2
        = ⟨(createDownloadJob jobs symbol timeframe period startDate endDate
            newId).jobs, newId, true⟩) := by
  constructor
  · intro j hfind
    constructor
    · unfold createDownloadJob
      rw [hfind]
    · simp [downloadHistoricalData, createDownloadJob, hfind]
  · intro hfind
    unfold createDownloadJob
    rw [hfind]
    refine ⟨rfl, rfl, ?_⟩
    unfold findActiveJob at hfind ⊢
    rw [List.find?_append, hfind]
    simp

/-- Witness for C2: attaching to an existing in-progress job, and a
create-then-attach pair. -/
theorem no_duplicate_jobs_witness :
    (findActiveJob
        [⟨"job-0", "AAPL", "1M", "1Y", "in_progress", ⟨2020, 0, 1, 0⟩,
          ⟨2021, 0, 1, 0⟩, 98280, 0, "0"⟩]
        (strToUpper "AAPL") "1M" "1Y"
      = some ⟨"job-0", "AAPL", "1M", "1Y", "in_progress", ⟨2020, 0, 1, 0⟩,
          ⟨2021, 0, 1, 0⟩, 98280, 0, "0"⟩
    ∧ createDownloadJob
        [⟨"job-0", "AAPL", "1M", "1Y", "in_progress", ⟨2020, 0, 1, 0⟩,
          ⟨2021, 0, 1, 0⟩, 98280, 0, "0"⟩]
        "AAPL" "1M" "1Y" ⟨2020, 0, 1, 0⟩ ⟨2021, 0, 1, 0⟩ "job-1"
      = ⟨[⟨"job-0", "AAPL", "1M", "1Y", "in_progress", ⟨2020, 0, 1, 0⟩,
          ⟨2021, 0, 1, 0⟩, 98280, 0, "0"⟩], "job-0", true⟩)
    ∧ (findActiveJob ([] : List Job) (strToUpper "AAPL") "1M" "1Y" = none
    ∧ createDownloadJob
        (createDownloadJob [] "AAPL" "1M" "1Y" ⟨2020, 0, 1, 0⟩
          ⟨2021, 0, 1, 0⟩ "job-1").jobs
        "AAPL" "1M" "1Y" ⟨2020, 0, 1, 0⟩ ⟨2021, 0, 1, 0⟩ "job-2"
      = ⟨(createDownloadJob [] "AAPL" "1M" "1Y" ⟨2020, 0, 1, 0⟩
          ⟨2021, 0, 1, 0⟩ "job-1").jobs, "job-1", true⟩) := by
  have hfind : findActiveJob
      [⟨"job-0", "AAPL", "1M", "1Y", "in_progress", ⟨2020, 0, 1, 0⟩,
        ⟨2021, 0, 1, 0⟩, 98280, 0, "0"⟩]
      (strToUpper "AAPL") "1M" "1Y"
    = some ⟨"job-0", "AAPL", "1M", "1Y", "in_progress", ⟨2020, 0, 1, 0⟩,
        ⟨2021, 0, 1, 0⟩, 98280, 0, "0"⟩ := by decide
  have hnone : findActiveJob ([] : List Job) (strToUpper "AAPL") "1M" "1Y"
      = none := by decide
  refine ⟨⟨hfind, ?_⟩, hnone, ?_⟩
  · exact ((no_duplicate_jobs (fun _ => .ok []) [] _ "AAPL" "1Y" "1M"
      ⟨2020, 0, 1, 0⟩ ⟨2021, 0, 1, 0⟩ "job-1" "job-2").1 _ hfind).1
  · exact ((no_duplicate_jobs (fun _ => .ok []) [] [] "AAPL" "1Y" "1M"
      ⟨2020, 0, 1, 0⟩ ⟨2021, 0, 1, 0⟩ "job-1" "job-2").2 hnone).2.2

/- ### Download loop lemmas -/

theorem prefixExt_saveIntelligentData (st : List HRow) (symbol : String)
    (candles : List PolygonCandle) (timeframe : String) :
    st <+: saveIntelligentData st symbol candles timeframe := by
  unfold saveIntelligentData
  split
  · exact List.prefix_refl st
  · split
    · exact List.prefix_refl st
    · exact prefixExt_insertIgnore _ st

theorem hasKey_mono_of_prefixExt {st st' : List HRow} (h : st <+: st')
    (k : String × Int × String) (hk : hasKey st k = true) :
    hasKey st' k = true := by
  rcases h with ⟨ext, rfl⟩
  rcases (hasKey_iff st k).mp hk with ⟨r, hr, hkey⟩
  exact (hasKey_iff _ k).mpr ⟨r, List.mem_append_left ext hr, hkey⟩

theorem runChunks_cons (oracle : FetchCall → Except String (List PolygonCandle))
    (symbol timeframe : String) (a : FetchCall) (rest : List FetchCall)
    (st : List HRow) :
    runChunks oracle symbol timeframe (a :: rest) st
      = runChunks oracle symbol timeframe rest
          (match oracle a with
           | .ok data =>
             if data.length > 0 then
               saveIntelligentData st symbol data timeframe
             else st
           | .error _ => st) := rfl

theorem prefixExt_runChunks (oracle : FetchCall → Except String (List PolygonCandle))
    (symbol timeframe : String) (chunks : List FetchCall) (st : List HRow) :
    st <+: runChunks oracle symbol timeframe chunks st := by
  induction chunks generalizing st with
  | nil => exact List.prefix_refl st
  | cons a rest ih =>
    rw [runChunks_cons]
    refine List.IsPrefix.trans ?_ (ih _)
    cases oracle a with
    | ok data =>
      by_cases hlen : data.length > 0
      · simpa [hlen] using prefixExt_saveIntelligentData st symbol data timeframe
      · simp [hlen]
    | error e => exact List.prefix_refl st

/-- A bar fetched by any successful chunk is present in the final store. -/
theorem runChunks_keeps_success
    (oracle : FetchCall → Except String (List PolygonCandle))
    (symbol timeframe : String) :
    ∀ (chunks : List FetchCall) (st : List HRow) (ch : FetchCall),
      ch ∈ chunks → ∀ data, oracle ch = .ok data → ∀ cd ∈ data,
      hasKey (runChunks oracle symbol timeframe chunks st)
        (symbol, cd.t, timeframe) = true := by
  intro chunks
  induction chunks with
  | nil => intro st ch hch; cases hch
  | cons a rest ih =>
    intro st ch hch data hdata cd hcd
    rcases List.mem_cons.mp hch with h | h
    · subst h
      rw [runChunks_cons, hdata]
      have hlen : data.length > 0 :=
        List.length_pos.mpr (List.ne_nil_of_mem hcd)
      simp only [hlen, if_pos]
      refine hasKey_mono_of_prefixExt (prefixExt_runChunks oracle symbol timeframe rest _)
        _ ?_
      have hmem := mem_existingTs_saveIntelligentData st symbol data timeframe cd hcd
      exact (hasKey_iff _ _).mpr ((mem_existingTs_iff _ _ _ _).mp hmem)
    · rw [runChunks_cons]
      exact ih _ ch h data hdata cd hcd

theorem mem_insertRowIgnore {st : List HRow} {a r : HRow}
    (h : r ∈ insertRowIgnore st a) : r ∈ st ∨ r = a := by
  unfold insertRowIgnore at h
  split at h
  · exact Or.inl h
  · rcases List.mem_append.mp h with h' | h'
    · exact Or.inl h'
    · exact Or.inr (List.mem_singleton.mp h')

theorem mem_insertIgnore (rows : List HRow) :
    ∀ (st : List HRow) (r : HRow), r ∈ insertIgnore st rows →
      r ∈ st ∨ r ∈ rows := by
  induction rows with
  | nil => intro st r h; exact Or.inl h
  | cons a rest ih =>
    intro st r h
    rcases ih (insertRowIgnore st a) r h with h' | h'
    · rcases mem_insertRowIgnore h' with h'' | h''
      · exact Or.inl h''
      · exact Or.inr (h'' ▸ List.mem_cons_self a rest)
    · exact Or.inr (List.mem_cons_of_mem a h')

theorem mem_saveIntelligentData {st : List HRow} {symbol : String}
    {candles : List PolygonCandle} {timeframe : String} {r : HRow}
    (h : r ∈ saveIntelligentData st symbol candles timeframe) :
    r ∈ st ∨ r.timeframe = timeframe := by
  unfold saveIntelligentData at h
  split at h
  · exact Or.inl h
  · split at h
    · exact Or.inl h
    · rcases mem_insertIgnore _ st r h with h' | h'
      · exact Or.inl h'
      · rcases List.mem_map.mp h' with ⟨cd, _, rfl⟩
        exact Or.inr rfl

theorem mem_runChunks (oracle : FetchCall → Except String (List PolygonCandle))
    (symbol timeframe : String) :
    ∀ (chunks : List FetchCall) (st : List HRow) (r : HRow),
      r ∈ runChunks oracle symbol timeframe chunks st →
      r ∈ st ∨ r.timeframe = timeframe := by
  intro chunks
  induction chunks with
  | nil => intro st r h; exact Or.inl h
  | cons a rest ih =>
    intro st r h
    rw [runChunks_cons] at h
    rcases ih _ r h with h' | h'
    · cases hora : oracle a with
      | ok data =>
        simp only [hora] at h'
        by_cases hlen : data.length > 0
        · rw [if_pos hlen] at h'
          exact mem_saveIntelligentData h'
        · rw [if_neg hlen] at h'
          exact Or.inl h'
      | error e =>
        simp only [hora] at h'
        exact Or.inl h'
    · exact Or.inr h'

/-- Shape of `downloadHistoricalData` when no job was attached. -/
theorem downloadHistoricalData_new
    (oracle : FetchCall → Except String (List PolygonCandle))
    (st : List HRow) (jobs : List Job)
    (symbol period timeframe : String) (endDate : JSDate) (newId : String)
    (hno : findActiveJob jobs (strToUpper symbol) timeframe period = none) :
    downloadHistoricalData oracle st jobs symbol period timeframe endDate newId
      = ⟨runChunks oracle symbol timeframe
          (downloadChunkPlan timeframe (calculateStartDate endDate period)
            endDate) st,
        markJobCompleted
          (jobs ++ [⟨newId, strToUpper symbol, timeframe, period,
            "in_progress", calculateStartDate endDate period, endDate,
            calculateExpectedRecords timeframe period
              (calculateStartDate endDate period) endDate, 0, "0"⟩]) newId,
        downloadChunkPlan timeframe (calculateStartDate endDate period)
          endDate,
        newId, false⟩ := by
  simp [downloadHistoricalData, createDownloadJob, hno]

/-- **C4.** Partial-failure completion: whatever the per-chunk fetch
outcomes — any subset of chunks may throw — the download catches each
chunk error and continues, finally marking the job `completed` at 100%
(never `failed`), and every bar fetched by a successful chunk remains
stored. -/
theorem download_completes_despite_chunk_errors
    (oracle : FetchCall → Except String (List PolygonCandle))
    (st : List HRow) (jobs : List Job)
    (symbol period timeframe : String) (endDate : JSDate) (newId : String)
    (hno : findActiveJob jobs (strToUpper symbol) timeframe period = none)
    (hfresh : ∀ j ∈ jobs, j.id ≠ newId) :
    (downloadHistoricalData oracle st jobs symbol period timeframe endDate
        newId).isExisting = false
    ∧ (∃ j ∈ (downloadHistoricalData oracle st jobs symbol period timeframe
          endDate newId).jobs,
        j.id = newId ∧ j.status = "completed" ∧ j.progressPercentage = "100")
    ∧ (∀ j ∈ (downloadHistoricalData oracle st jobs symbol period timeframe
          endDate newId).jobs,
        j.id = newId → j.status = "completed" ∧ j.progressPercentage = "100")
    ∧ (∀ ch ∈ (downloadHistoricalData oracle st jobs symbol period timeframe
          endDate newId).chunks, ∀ data, oracle ch = .ok data → ∀ cd ∈ data,
        hasKey (downloadHistoricalData oracle st jobs symbol period timeframe
          endDate newId).store (symbol, cd.t, timeframe) = true) := by
  rw [downloadHistoricalData_new oracle st jobs symbol period timeframe endDate
    newId hno]
  refine ⟨rfl, ?_, ?_, ?_⟩
  · refine ⟨_, List.mem_map_of_mem _
      (List.mem_append_right jobs (List.mem_singleton_self _)), ?_⟩
    simp [markJobCompleted]
  · intro j hj hid
    unfold markJobCompleted at hj
    rcases List.mem_map.mp hj with ⟨j', hj', rfl⟩
    rcases List.mem_append.mp hj' with h | h
    · rw [if_neg (hfresh j' h)] at hid ⊢
      exact absurd hid (hfresh j' h)
    · rcases List.mem_singleton.mp h with rfl
      simp
  · intro ch hch data hdata cd hcd
    exact runChunks_keeps_success oracle symbol timeframe _ st ch hch data
      hdata cd hcd

/-- Witness for C4: a two-chunk plan where the second chunk's fetch throws;
the job still completes and the first chunk's bar is stored. -/
theorem download_completes_despite_chunk_errors_witness :
    findActiveJob ([] : List Job) (strToUpper "AAPL") "1D" "2Y" = none
    ∧ (∀ j ∈ ([] : List Job), j.id ≠ "job-1")
    ∧ (downloadHistoricalData
        (fun ch => if ch.fromDays < 18250 then .error "boom"
          else .ok [⟨1, 2, 3, 4, 5, 6⟩])
        [] [] "AAPL" "2Y" "1D" ⟨2021, 1, 18, 0⟩ "job-1").isExisting = false
    ∧ (∃ j ∈ (downloadHistoricalData
        (fun ch => if ch.fromDays < 18250 then .error "boom"
          else .ok [⟨1, 2, 3, 4, 5, 6⟩])
        [] [] "AAPL" "2Y" "1D" ⟨2021, 1, 18, 0⟩ "job-1").jobs,
        j.id = "job-1" ∧ j.status = "completed"
          ∧ j.progressPercentage = "100") := by
  have hno : findActiveJob ([] : List Job) (strToUpper "AAPL") "1D" "2Y"
      = none := by decide
  have h := download_completes_despite_chunk_errors
    (fun ch => if ch.fromDays < 18250 then .error "boom"
      else .ok [⟨1, 2, 3, 4, 5, 6⟩])
    [] [] "AAPL" "2Y" "1D" ⟨2021, 1, 18, 0⟩ "job-1" hno
    (fun j hj => absurd hj (List.not_mem_nil j))
  exact ⟨hno, fun j hj => absurd hj (List.not_mem_nil j), h.1, h.2.1⟩

/- ### C10: unrecognized timeframes default to 1-minute -/

/-- **C10.** `parseTimeframe` is total: every string outside
{1M, 5M, 15M, 30M, 1H, 1D} maps to 1-minute parameters, and a bulk
download invoked with such a timeframe is not rejected — it proceeds
(creating and completing a job), every chunk fetch requests 1-minute data,
and every newly stored row is tagged with the caller's unrecognized
timeframe string. -/
theorem parseTimeframe_default
    (oracle : FetchCall → Except String (List PolygonCandle))
    (st : List HRow) (jobs : List Job)
    (symbol period timeframe : String) (endDate : JSDate) (newId : String)
    (htf : ¬ timeframe ∈ ["1M", "5M", "15M", "30M", "1H", "1D"])
    (hno : findActiveJob jobs (strToUpper symbol) timeframe period = none) :
    parseTimeframe timeframe = ("minute", 1)
    ∧ (downloadHistoricalData oracle st jobs symbol period timeframe endDate
        newId).isExisting = false
    ∧ (∀ ch ∈ (downloadHistoricalData oracle st jobs symbol period timeframe
        endDate newId).chunks, ch.timespan = "minute" ∧ ch.multiplier = 1)
    ∧ (∀ r ∈ (downloadHistoricalData oracle st jobs symbol period timeframe
        endDate newId).store, r ∈ st ∨ r.timeframe = timeframe)
    ∧ (∃ j ∈ (downloadHistoricalData oracle st jobs symbol period timeframe
        endDate newId).jobs,
        j.id = newId ∧ j.timeframe = timeframe ∧ j.status = "completed") := by
  simp only [List.mem_cons, List.not_mem_nil, or_false, not_or] at htf
  obtain ⟨h1, h2, h3, h4, h5, h6⟩ := htf
  have hparse : parseTimeframe timeframe = ("minute", 1) := by
    simp [parseTimeframe, h1, h2, h3, h4, h5, h6]
  rw [downloadHistoricalData_new oracle st jobs symbol period timeframe endDate
    newId hno]
  refine ⟨hparse, rfl, ?_, ?_, ?_⟩
  · intro ch hch
    unfold downloadChunkPlan at hch
    rw [if_neg (fun hc => h1 hc.1)] at hch
    rcases List.mem_map.mp hch with ⟨y, _, rfl⟩
    rw [hparse]
    exact ⟨rfl, rfl⟩
  · intro r hr
    exact mem_runChunks oracle symbol timeframe _ st r hr
  · refine ⟨_, List.mem_map_of_mem _
      (List.mem_append_right jobs (List.mem_singleton_self _)), ?_⟩
    simp [markJobCompleted]

/-- Witness for C10 at the unrecognized timeframe "XX". -/
theorem parseTimeframe_default_witness :
    (¬ "XX" ∈ ["1M", "5M", "15M", "30M", "1H", "1D"])
    ∧ findActiveJob ([] : List Job) (strToUpper "AAPL") "XX" "1Y" = none
    ∧ parseTimeframe "XX" = ("minute", 1)
    ∧ (∀ ch ∈ (downloadHistoricalData (fun _ => .ok [⟨1, 2, 3, 4, 5, 6⟩])
        [] [] "AAPL" "1Y" "XX" ⟨2021, 1, 18, 0⟩ "job-1").chunks,
        ch.timespan = "minute" ∧ ch.multiplier = 1)
    ∧ (∀ r ∈ (downloadHistoricalData (fun _ => .ok [⟨1, 2, 3, 4, 5, 6⟩])
        [] [] "AAPL" "1Y" "XX" ⟨2021, 1, 18, 0⟩ "job-1").store,
        r ∈ ([] : List HRow) ∨ r.timeframe = "XX") := by
  have h := parseTimeframe_default (fun _ => .ok [⟨1, 2, 3, 4, 5, 6⟩])
    [] [] "AAPL" "1Y" "XX" ⟨2021, 1, 18, 0⟩ "job-1" (by decide) (by decide)
  exact ⟨by decide, by decide, h.1, h.2.2.1, h.2.2.2.1⟩

/- ### C5: progress boundedness and monotonicity -/

theorem progressPct_le_100 (c e : Nat) : progressPct c e ≤ 100 :=
  Nat.min_le_right _ _

theorem progressPct_mono {c1 c2 : Nat} (e : Nat) (h : c1 ≤ c2) :
    progressPct c1 e ≤ progressPct c2 e := by
  unfold progressPct
  have hd : (200 * c1 + e) / (2 * e) ≤ (200 * c2 + e) / (2 * e) :=
    Nat.div_le_div_right (by omega)
  omega

theorem countRecords_append_le (st ext : List HRow) (symbol timeframe : String) :
    countRecords st symbol timeframe ≤ countRecords (st ++ ext) symbol timeframe := by
  unfold countRecords
  rw [List.filter_append, List.length_append]
  omega

/-- **C5.** Progress boundedness and monotonicity: a progress report's
percentage is derived as min(100, round(current/expected·100)) from the
recomputed count of stored bars for the job's (symbol, timeframe), so it
always lies in [0, 100]; growing the store (bars are never deleted) can
only increase the reported percentage; and the job transitions to
`completed` exactly when the count reaches `expectedRecords` (floored to 1
when zero) or the percentage reaches 100. -/
theorem progress_bounded_monotone (st ext : List HRow) (jobs : List Job)
    (symbol : String) (tfp : Option (String × String)) (job : Job)
    (hfind : findLatestActiveJob jobs (strToUpper symbol) tfp = some job) :
    (getDownloadProgress st jobs symbol tfp).1.percentage ≤ 100
    ∧ (getDownloadProgress st jobs symbol tfp).1.percentage
        ≤ (getDownloadProgress (st ++ ext) jobs symbol tfp).1.percentage
    ∧ ((getDownloadProgress st jobs symbol tfp).1.completed = true
        ↔ ((if job.expectedRecords = 0 then 1 else job.expectedRecords)
              ≤ countRecords st job.symbol job.timeframe
          ∨ progressPct (countRecords st job.symbol job.timeframe)
              (if job.expectedRecords = 0 then 1 else job.expectedRecords)
            = 100))
    ∧ (((if job.expectedRecords = 0 then 1 else job.expectedRecords)
          ≤ countRecords st job.symbol job.timeframe
        ∨ progressPct (countRecords st job.symbol job.timeframe)
            (if job.expectedRecords = 0 then 1 else job.expectedRecords)
          = 100) →
        ∀ j ∈ (getDownloadProgress st jobs symbol tfp).2, j.id = job.id →
          j.status = "completed" ∧ j.progressPercentage = "100")
    ∧ (¬((if job.expectedRecords = 0 then 1 else job.expectedRecords)
          ≤ countRecords st job.symbol job.timeframe
        ∨ progressPct (countRecords st job.symbol job.timeframe)
            (if job.expectedRecords = 0 then 1 else job.expectedRecords)
          = 100) →
        (getDownloadProgress st jobs symbol tfp).1.percentage
          = progressPct (countRecords st job.symbol job.timeframe)
              (if job.expectedRecords = 0 then 1 else job.expectedRecords)
        ∧ (getDownloadProgress st jobs symbol tfp).1.completed = false) := by
  have hc := countRecords_append_le st ext job.symbol job.timeframe
  have hb1 := progressPct_le_100 (countRecords st job.symbol job.timeframe)
    (if job.expectedRecords = 0 then 1 else job.expectedRecords)
  have hb2 := progressPct_le_100
    (countRecords (st ++ ext) job.symbol job.timeframe)
    (if job.expectedRecords = 0 then 1 else job.expectedRecords)
  have hm := progressPct_mono
    (if job.expectedRecords = 0 then 1 else job.expectedRecords) hc
  simp only [getDownloadProgress, hfind]
  by_cases hcond : countRecords st job.symbol job.timeframe
      ≥ (if job.expectedRecords = 0 then 1 else job.expectedRecords)
    ∨ progressPct (countRecords st job.symbol job.timeframe)
        (if job.expectedRecords = 0 then 1 else job.expectedRecords) ≥ 100
  · have hcond2 : countRecords (st ++ ext) job.symbol job.timeframe
        ≥ (if job.expectedRecords = 0 then 1 else job.expectedRecords)
      ∨ progressPct (countRecords (st ++ ext) job.symbol job.timeframe)
          (if job.expectedRecords = 0 then 1 else job.expectedRecords) ≥ 100 := by
      rcases hcond with h | h
      · exact Or.inl (le_trans h hc)
      · exact Or.inr (le_trans h hm)
    rw [if_pos hcond, if_pos hcond2]
    refine ⟨le_refl 100, le_refl 100, ?_, ?_, ?_⟩
    · simp only [true_iff]
      rcases hcond with h | h
      · exact Or.inl h
      · exact Or.inr (le_antisymm hb1 h)
    · intro _ j hj hid
      rcases List.mem_map.mp hj with ⟨j', hj', rfl⟩
      by_cases hidj : j'.id = job.id
      · rw [if_pos hidj]
        exact ⟨rfl, rfl⟩
      · rw [if_neg hidj] at hid ⊢
        exact absurd hid hidj
    · intro hnc
      exfalso
      apply hnc
      rcases hcond with h | h
      · exact Or.inl h
      · exact Or.inr (le_antisymm hb1 h)
  · rw [if_neg hcond]
    refine ⟨hb1, ?_, ?_, ?_, fun _ => ⟨rfl, rfl⟩⟩
    · by_cases hcond2 : countRecords (st ++ ext) job.symbol job.timeframe
          ≥ (if job.expectedRecords = 0 then 1 else job.expectedRecords)
        ∨ progressPct (countRecords (st ++ ext) job.symbol job.timeframe)
            (if job.expectedRecords = 0 then 1 else job.expectedRecords) ≥ 100
      · rw [if_pos hcond2]
        exact hb1
      · rw [if_neg hcond2]
        exact hm
    · simp only [Bool.false_eq_true, false_iff]
      intro hcf
      apply hcond
      rcases hcf with h | h
      · exact Or.inl h
      · exact Or.inr (le_of_eq h.symm)
    · intro hcf
      exfalso
      apply hcond
      rcases hcf with h | h
      · exact Or.inl h
      · exact Or.inr (le_of_eq h.symm)

/-- Witness for C5: an active job with expectation 2; an empty store
reports 0 and not completed, and after two matching bars arrive the report
is 100 and completed. -/
theorem progress_bounded_monotone_witness :
    findLatestActiveJob
        [⟨"job-0", "AAPL", "1M", "1Y", "in_progress", ⟨2020, 0, 1, 0⟩,
          ⟨2021, 0, 1, 0⟩, 2, 0, "0"⟩]
        (strToUpper "AAPL") (some ("1M", "1Y"))
      = some ⟨"job-0", "AAPL", "1M", "1Y", "in_progress", ⟨2020, 0, 1, 0⟩,
          ⟨2021, 0, 1, 0⟩, 2, 0, "0"⟩
    ∧ (getDownloadProgress []
        [⟨"job-0", "AAPL", "1M", "1Y", "in_progress", ⟨2020, 0, 1, 0⟩,
          ⟨2021, 0, 1, 0⟩, 2, 0, "0"⟩] "AAPL"
        (some ("1M", "1Y"))).1.percentage ≤ 100
    ∧ (getDownloadProgress []
        [⟨"job-0", "AAPL", "1M", "1Y", "in_progress", ⟨2020, 0, 1, 0⟩,
          ⟨2021, 0, 1, 0⟩, 2, 0, "0"⟩] "AAPL"
        (some ("1M", "1Y"))).1.percentage
      ≤ (getDownloadProgress
          ([] ++ [⟨"AAPL", 1000, 1, 2, 3, 4, 5, "1M"⟩,
            ⟨"AAPL", 2000, 1, 2, 3, 4, 5, "1M"⟩])
          [⟨"job-0", "AAPL", "1M", "1Y", "in_progress", ⟨2020, 0, 1, 0⟩,
            ⟨2021, 0, 1, 0⟩, 2, 0, "0"⟩] "AAPL"
          (some ("1M", "1Y"))).1.percentage := by
  have h := progress_bounded_monotone []
    [⟨"AAPL", 1000, 1, 2, 3, 4, 5, "1M"⟩, ⟨"AAPL", 2000, 1, 2, 3, 4, 5, "1M"⟩]
    [⟨"job-0", "AAPL", "1M", "1Y", "in_progress", ⟨2020, 0, 1, 0⟩,
      ⟨2021, 0, 1, 0⟩, 2, 0, "0"⟩]
    "AAPL" (some ("1M", "1Y"))
    ⟨"job-0", "AAPL", "1M", "1Y", "in_progress", ⟨2020, 0, 1, 0⟩,
      ⟨2021, 0, 1, 0⟩, 2, 0, "0"⟩ (by decide)
  exact ⟨by decide, h.1, h.2.1⟩

/- ### C7: chunk partitioning -/

set_option maxHeartbeats 2000000 in
theorem monthStartDays_lt_succ (k : Int) :
    monthStartDays k < monthStartDays (k + 1) := by
  unfold monthStartDays daysFromCivil civilYearAdj doyOf
  split_ifs <;> omega

theorem monthStartDays_strictMono : StrictMono monthStartDays :=
  strictMono_int_of_lt_succ monthStartDays_lt_succ

theorem toDays_eq_monthStart_add (dt : JSDate) (h1 : 0 ≤ dt.month)
    (h2 : dt.month ≤ 11) :
    dt.toDays = monthStartDays (monthIndex dt) + (dt.day - 1) := by
  unfold JSDate.toDays monthStartDays monthIndex
  have e1 : (dt.year * 12 + dt.month) / 12 = dt.year := by omega
  have e2 : (dt.year * 12 + dt.month) % 12 = dt.month := by omega
  rw [e1, e2]
  unfold daysFromCivil civilYearAdj doyOf
  split_ifs <;> omega

/-- A valid date's day count lies within its month. -/
theorem toDays_bracket (dt : JSDate) (h : ValidJSDate dt) :
    monthStartDays (monthIndex dt) ≤ dt.toDays
    ∧ dt.toDays < monthStartDays (monthIndex dt + 1) := by
  obtain ⟨h1, h2, h3, h4, _, _⟩ := h
  have key := toDays_eq_monthStart_add dt h1 h2
  unfold daysInMonthJS at h4
  unfold monthIndex at key ⊢
  omega

theorem monthIndex_le_of_getTime_le {a b : JSDate}
    (ha : ValidJSDate a) (hb : ValidJSDate b) (h : a.getTime ≤ b.getTime) :
    monthIndex a ≤ monthIndex b := by
  have hdays : a.toDays ≤ b.toDays := by
    unfold JSDate.getTime msPerDay at h
    obtain ⟨_, _, _, _, hm1, hm2⟩ := ha
    obtain ⟨_, _, _, _, hm3, hm4⟩ := hb
    unfold msPerDay at hm2 hm4
    omega
  by_contra hlt
  push_neg at hlt
  have h1 := (toDays_bracket a ha).1
  have h2 := (toDays_bracket b hb).2
  have h3 : monthStartDays (monthIndex b + 1)
      ≤ monthStartDays (monthIndex a) :=
    monthStartDays_strictMono.le_iff_le.mpr (by omega)
  omega

/-- The month loop enumerates exactly the month indexes from `k` through
`kend` when given enough fuel. -/
theorem monthsLoop_eq (kend : Int) :
    ∀ (fuel : Nat) (k : Int), (kend + 1 - k).toNat < fuel →
    monthsLoop fuel k (monthStartDays (kend + 1) - 1)
      = (List.range (kend + 1 - k).toNat).map (fun (i : Nat) => k + (i : Int)) := by
  intro fuel
  induction fuel with
  | zero => intro k h; omega
  | succ f ih =>
    intro k h
    by_cases hk : k ≤ kend
    · have hcond : monthStartDays k ≤ monthStartDays (kend + 1) - 1 := by
        have := monthStartDays_strictMono (show k < kend + 1 by omega)
        omega
      have hrec := ih (k + 1) (by omega)
      unfold monthsLoop
      rw [if_pos hcond, hrec]
      have hn : (kend + 1 - k).toNat = (kend + 1 - (k + 1)).toNat + 1 := by
        omega
      rw [hn, List.range_succ_eq_map, List.map_cons, List.map_map]
      congr 1
      · simp
      · refine List.map_congr_left ?_
        intro i _
        show (k + 1) + (i : Int) = k + ((i + 1 : Nat) : Int)
        push_cast
        ring
    · have hcond : ¬ monthStartDays k ≤ monthStartDays (kend + 1) - 1 := by
        have := monthStartDays_strictMono.le_iff_le.mpr
          (show kend + 1 ≤ k by omega)
        omega
      unfold monthsLoop
      rw [if_neg hcond]
      have hz : (kend + 1 - k).toNat = 0 := by omega
      rw [hz]
      rfl

/-- **C7 (amended).** Chunk partitioning strategy: a bulk download whose
timeframe is exactly `"1M"` (1-minute bars) and whose span exceeds 90 days
is partitioned into month-sized chunks — one fetch per calendar month from
the start date's month through the end date's month; every other request
(shorter spans, other timeframes — including 5M/15M/30M minute-resolution
ones — and hour/day bars) is partitioned by calendar year; a span crossing
a calendar-year boundary is never issued as a single unpartitioned
fetch. -/
theorem chunk_partitioning
    (oracle : FetchCall → Except String (List PolygonCandle))
    (st : List HRow) (jobs : List Job)
    (symbol period timeframe : String) (endDate : JSDate) (newId : String)
    (hno : findActiveJob jobs (strToUpper symbol) timeframe period = none)
    (hsv : ValidJSDate (calculateStartDate endDate period))
    (hev : ValidJSDate endDate)
    (hle : (calculateStartDate endDate period).getTime ≤ endDate.getTime) :
    (timeframe = "1M"
        ∧ endDate.getTime - (calculateStartDate endDate period).getTime
          > 90 * 24 * 60 * 60 * 1000 →
      (downloadHistoricalData oracle st jobs symbol period timeframe endDate
          newId).chunks
        = (List.range (monthIndex endDate + 1
            - monthIndex (calculateStartDate endDate period)).toNat).map
            (fun (i : Nat) => monthlyCall ("minute", 1)
              (monthIndex (calculateStartDate endDate period) + (i : Int))
              endDate)
      ∧ (downloadHistoricalData oracle st jobs symbol period timeframe
            endDate newId).chunks.length
          = (monthIndex endDate + 1
            - monthIndex (calculateStartDate endDate period)).toNat)
    ∧ (¬(timeframe = "1M"
        ∧ endDate.getTime - (calculateStartDate endDate period).getTime
          > 90 * 24 * 60 * 60 * 1000) →
      (downloadHistoricalData oracle st jobs symbol period timeframe endDate
          newId).chunks
        = (getYearRange (calculateStartDate endDate period) endDate).map
            (fun y => yearlyCall (parseTimeframe timeframe) y
              (calculateStartDate endDate period) endDate)
      ∧ (downloadHistoricalData oracle st jobs symbol period timeframe
            endDate newId).chunks.length
          = (endDate.year - (calculateStartDate endDate period).year
            + 1).toNat)
    ∧ ((calculateStartDate endDate period).year < endDate.year →
      2 ≤ (downloadHistoricalData oracle st jobs symbol period timeframe
            endDate newId).chunks.length) := by
  have hmi : monthIndex (calculateStartDate endDate period)
      ≤ monthIndex endDate := monthIndex_le_of_getTime_le hsv hev hle
  rw [downloadHistoricalData_new oracle st jobs symbol period timeframe
    endDate newId hno]
  refine ⟨?_, ?_, ?_⟩
  · intro hc
    unfold downloadChunkPlan
    rw [if_pos hc,
      monthsLoop_eq (monthIndex endDate)
        ((monthIndex endDate + 2)
          - monthIndex (calculateStartDate endDate period)).toNat
        (monthIndex (calculateStartDate endDate period)) (by omega),
      List.map_map]
    constructor
    · refine List.map_congr_left ?_
      intro i _
      show monthlyCall (parseTimeframe timeframe) _ endDate = _
      rw [hc.1]
      rfl
    · rw [List.length_map, List.length_range]
  · intro hnc
    unfold downloadChunkPlan
    rw [if_neg hnc]
    refine ⟨rfl, ?_⟩
    rw [List.length_map]
    unfold getYearRange
    rw [List.length_map, List.length_range]
  · intro hy
    have hb1 : 0 ≤ (calculateStartDate endDate period).month := hsv.1
    have hb2 : (calculateStartDate endDate period).month ≤ 11 := hsv.2.1
    have hb3 : 0 ≤ endDate.month := hev.1
    unfold downloadChunkPlan
    by_cases hcase : timeframe = "1M"
        ∧ endDate.getTime - (calculateStartDate endDate period).getTime
          > 90 * 24 * 60 * 60 * 1000
    · rw [if_pos hcase,
        monthsLoop_eq (monthIndex endDate)
          ((monthIndex endDate + 2)
            - monthIndex (calculateStartDate endDate period)).toNat
          (monthIndex (calculateStartDate endDate period)) (by omega),
        List.map_map, List.length_map, List.length_range]
      unfold monthIndex at *
      omega
    · rw [if_neg hcase, List.length_map]
      unfold getYearRange
      rw [List.length_map, List.length_range]
      omega

/-- Witness for C7 (amended): a 1-minute, two-year download ending
2021-02-18 is split into 25 monthly chunks. -/
theorem chunk_partitioning_witness :
    findActiveJob ([] : List Job) (strToUpper "AAPL") "1M" "2Y" = none
    ∧ ValidJSDate (calculateStartDate ⟨2021, 1, 18, 0⟩ "2Y")
    ∧ ValidJSDate ⟨2021, 1, 18, 0⟩
    ∧ (calculateStartDate ⟨2021, 1, 18, 0⟩ "2Y").getTime
        ≤ JSDate.getTime ⟨2021, 1, 18, 0⟩
    ∧ ("1M" = "1M"
        ∧ JSDate.getTime ⟨2021, 1, 18, 0⟩
            - (calculateStartDate ⟨2021, 1, 18, 0⟩ "2Y").getTime
          > 90 * 24 * 60 * 60 * 1000)
    ∧ (downloadHistoricalData (fun _ => .ok []) [] [] "AAPL" "2Y" "1M"
        ⟨2021, 1, 18, 0⟩ "job-1").chunks.length = 25 := by
  have h := chunk_partitioning (fun _ => .ok []) [] [] "AAPL" "2Y" "1M"
    ⟨2021, 1, 18, 0⟩ "job-1" (by decide) (by decide) (by decide) (by decide)
  refine ⟨by decide, by decide, by decide, by decide, ⟨rfl, by decide⟩, ?_⟩
  exact ((h.1 ⟨rfl, by decide⟩).2).trans (by decide)

/-- Counterexample to C7 as stated: a 5-minute request — minute-resolution
bars — spanning two years (far above 90 days) is partitioned into 3
calendar-year chunks, not into the 25 calendar-month chunks the claim
demands for every minute-resolution request. -/
theorem chunk_partitioning_counterexample :
    parseTimeframe "5M" = ("minute", 5)
    ∧ JSDate.getTime ⟨2021, 1, 18, 0⟩
        - (calculateStartDate ⟨2021, 1, 18, 0⟩ "2Y").getTime
      > 90 * 24 * 60 * 60 * 1000
    ∧ (monthIndex ⟨2021, 1, 18, 0⟩ + 1
        - monthIndex (calculateStartDate ⟨2021, 1, 18, 0⟩ "2Y")).toNat = 25
    ∧ (downloadHistoricalData (fun _ => .ok []) [] [] "AAPL" "2Y" "5M"
        ⟨2021, 1, 18, 0⟩ "job-1").chunks.length = 3
    ∧ ¬ (downloadHistoricalData (fun _ => .ok []) [] [] "AAPL" "2Y" "5M"
        ⟨2021, 1, 18, 0⟩ "job-1").chunks.length = 25 := by
  refine ⟨rfl, by decide, by decide, ?_, ?_⟩ <;> decide
